import Mathlib

/-!
Shallow embedding of the bdk-ldk `LightningWallet` core (src/lib.rs).

Machine integers (u32 heights, usize positions) are modelled as `Nat`,
with an explicit `% 2 ^ 32` where u32 overflow matters (the fee
estimator's multiplication).  Fallible operations return
`Except Fail α`: a backend failure is `Fail.err` (wrapping the bdk
error unchanged, mirroring `From<bdk::Error> for Error`), and an
unchecked `Option::unwrap` on a missing value is `Fail.panic`.

The blockchain backend (`wallet.client()`, a bdk `Blockchain +
IndexedChain`) and the wallet resync are modelled as a structure of
pure fallible lookups.  The two LDK observers (`channel_manager` and
`chain_monitor`) are modelled by the relevant-txid lists they supply;
`sync` returns the trace of announcements it issues, each announcement
being delivered to every observer (channel manager first, then chain
monitor) exactly as the source's paired calls do.

`std::collections::HashMap` has an unspecified iteration order; the
grouping map `txs_by_block` is modelled as an association list in key
insertion order (`insertGrouped`).  The source performs no sorting of
heights or positions, so no ordering conclusion depends on which
iteration order the model fixes.
-/

/-- Transaction identifier (bitcoin `Txid`), modelled as a natural number. -/
abbrev Txid := Nat

/-- Locking script (bitcoin `Script`), modelled as a natural number. -/
abbrev Script := Nat

/-- Block header, modelled abstractly as a natural number. -/
abbrev Header := Nat

/-- A bitcoin transaction; only its computed `txid()` is relevant to the core. -/
structure Tx where
  txid : Txid
deriving DecidableEq, Repr

/-- bdk `TxStatus`: confirmation flag plus optional block height. -/
structure TxStatus where
  confirmed : Bool
  block_height : Option Nat
deriving DecidableEq, Repr

/-- lightning `WatchedOutput`; the core only ever reads its `script_pubkey`. -/
structure WatchedOutput where
  outpoint : Nat
  script_pubkey : Script
deriving DecidableEq, Repr

/-- Opaque bdk backend error value. -/
structure BdkErr where
  code : Nat
deriving DecidableEq, Repr

/-- The crate's single error kind, wrapping a bdk error (`enum Error`). -/
inductive Error where
  | bdk (e : BdkErr)
deriving DecidableEq, Repr

/-- Failure of a core operation: a propagated backend error, or a panic
from an unchecked `Option::unwrap`. -/
inductive Fail where
  | err (e : Error)
  | panic
deriving DecidableEq, Repr

/-- Result type of fallible core operations. -/
abbrev Res (α : Type) := Except Fail α

/-- The blockchain backend and wallet resync as pure fallible lookups.
`estimate_fee` yields the estimate's sat-per-vbyte value after the
`as u32` cast, hence a natural number below `2 ^ 32`. -/
structure Backend where
  wallet_sync : Except BdkErr Unit
  get_tx_status : Txid → Except BdkErr (Option TxStatus)
  get_script_tx_history : Script → Except BdkErr (List (TxStatus × Tx))
  get_position_in_block : Txid → Nat → Except BdkErr (Option Nat)
  get_header : Nat → Except BdkErr Header
  get_height : Except BdkErr Nat
  estimate_fee : Nat → Except BdkErr Nat
  broadcast : Tx → Except BdkErr Unit

/-- `TxFilter`: the watch registry. -/
structure TxFilter where
  watched_transactions : List (Txid × Script)
  watched_outputs : List WatchedOutput
deriving DecidableEq, Repr

/-- `TxFilter::new`. -/
def TxFilter.new : TxFilter := ⟨[], []⟩

/-- `TxFilter::register_tx` appends to the transaction watch list. -/
def TxFilter.register_tx (f : TxFilter) (txid : Txid) (script : Script) : TxFilter :=
  { f with watched_transactions := f.watched_transactions ++ [(txid, script)] }

/-- `TxFilter::register_output` appends to the output watch list. -/
def TxFilter.register_output (f : TxFilter) (output : WatchedOutput) : TxFilter :=
  { f with watched_outputs := f.watched_outputs ++ [output] }

/-- Sequential collect of fallible results, mirroring
`Iterator::collect::<Result<Vec<_>, _>>`: stops at the first error. -/
def mapMEx (f : α → Res β) : List α → Res (List β)
  | [] => .ok []
  | x :: xs =>
    match f x with
    | .error e => .error e
    | .ok y =>
      match mapMEx f xs with
      | .error e => .error e
      | .ok ys => .ok (y :: ys)

/-- `augment_txid_with_confirmation_status`: single backend status query;
a missing status maps to `confirmed = false`. -/
def augment_txid_with_confirmation_status (b : Backend) (txid : Txid) : Res (Txid × Bool) :=
  match b.get_tx_status txid with
  | .error e => .error (.err (.bdk e))
  | .ok (some status) => .ok (txid, status.confirmed)
  | .ok none => .ok (txid, false)

/-- `get_unconfirmed`: query the status of every id and keep those not
currently confirmed. -/
def get_unconfirmed (b : Backend) (txids : List Txid) : Res (List Txid) :=
  match mapMEx (augment_txid_with_confirmation_status b) txids with
  | .error e => .error e
  | .ok statuses => .ok ((statuses.filter fun p => !p.2).map Prod.fst)

/-- `get_confirmed_tx`: first entry of the script's history that is
confirmed and has the requested txid; its height is unwrapped, panicking
when absent. -/
def get_confirmed_tx (b : Backend) (txid : Txid) (script : Script) :
    Res (Option (Nat × Tx)) :=
  match b.get_script_tx_history script with
  | .error e => .error (.err (.bdk e))
  | .ok history =>
    match history.find? (fun e => e.1.confirmed && e.2.txid == txid) with
    | none => .ok none
    | some e =>
      match e.1.block_height with
      | none => .error .panic
      | some h => .ok (some (h, e.2))

/-- `get_confirmed_txs_from_script_history`: keep the confirmed entries
and unwrap each height, panicking when a confirmed entry has none. -/
def get_confirmed_txs_from_script_history (history : List (TxStatus × Tx)) :
    Res (List (Nat × Tx)) :=
  mapMEx
    (fun e =>
      match e.1.block_height with
      | none => Except.error Fail.panic
      | some h => Except.ok (h, e.2))
    (history.filter fun e => e.1.confirmed)

/-- `get_confirmed_txs`: every confirmed history entry for a watched
output's script, with no txid filter. -/
def get_confirmed_txs (b : Backend) (output : WatchedOutput) : Res (List (Nat × Tx)) :=
  match b.get_script_tx_history output.script_pubkey with
  | .error e => .error (.err (.bdk e))
  | .ok history => get_confirmed_txs_from_script_history history

/-- `augment_with_position`: resolve a transaction's position in its
block; an unresolvable position yields `ok none`, not an error. -/
def augment_with_position (b : Backend) (height : Nat) (tx : Tx) :
    Res (Option (Nat × Tx × Nat)) :=
  match b.get_position_in_block tx.txid height with
  | .error e => .error (.err (.bdk e))
  | .ok position => .ok (position.map fun pos => (height, tx, pos))

/-- `augment_with_header`: attach the block header for a height to its
transaction list. -/
def augment_with_header (b : Backend) (height : Nat) (tx_list : List (Nat × Tx)) :
    Res (Nat × Header × List (Nat × Tx)) :=
  match b.get_header height with
  | .error e => .error (.err (.bdk e))
  | .ok header => .ok (height, header, tx_list)

/-- `txs_by_block.entry(height).or_default().push((pos, tx))` on the
association-list model of the `HashMap`: append to the bucket of the key
when present, otherwise append a fresh singleton bucket. -/
def insertGrouped (m : List (Nat × List (Nat × Tx))) (h : Nat) (p : Nat × Tx) :
    List (Nat × List (Nat × Tx)) :=
  match m with
  | [] => [(h, [p])]
  | (k, lst) :: rest =>
    if k = h then (k, lst ++ [p]) :: rest
    else (k, lst) :: insertGrouped rest h p

/-- `get_confirmed_txs_by_block`: gather confirmed matches for watched
transactions and watched outputs, resolve positions (dropping the pairs
with none), bucket by height, and attach headers.  No sorting of
positions or heights is performed. -/
def get_confirmed_txs_by_block (b : Backend) (f : TxFilter) :
    Res (List (Nat × Header × List (Nat × Tx))) :=
  match mapMEx (fun p => get_confirmed_tx b p.1 p.2) f.watched_transactions with
  | .error e => .error e
  | .ok confirmed_txs_opt =>
    match mapMEx (get_confirmed_txs b) f.watched_outputs with
    | .error e => .error e
    | .ok confirmed_spent_lists =>
      let confirmed_txs := confirmed_txs_opt.filterMap id ++ confirmed_spent_lists.flatten
      match mapMEx (fun p => augment_with_position b p.1 p.2) confirmed_txs with
      | .error e => .error e
      | .ok with_pos_opt =>
        let grouped :=
          (with_pos_opt.filterMap id).foldl
            (fun m t => insertGrouped m t.1 (t.2.2, t.2.1)) []
        mapMEx (fun g => augment_with_header b g.1 g.2) grouped

/-- `get_tip`: current best height and its header. -/
def get_tip (b : Backend) : Res (Nat × Header) :=
  match b.get_height with
  | .error e => .error (.err (.bdk e))
  | .ok tip_height =>
    match b.get_header tip_height with
    | .error e => .error (.err (.bdk e))
    | .ok tip_header => .ok (tip_height, tip_header)

/-- One announcement of a sync pass; each is delivered to every observer
(channel manager first, then chain monitor). -/
inductive Event where
  | unconfirmedE (txid : Txid)
  | confirmedE (header : Header) (tx_list : List (Nat × Tx)) (height : Nat)
  | bestBlockE (header : Header) (height : Nat)
deriving DecidableEq, Repr

/-- `Vec::dedup`: drop consecutive duplicate elements. -/
def dedupConsec : List Txid → List Txid
  | [] => []
  | [a] => [a]
  | a :: b :: rest =>
    if a = b then dedupConsec (b :: rest) else a :: dedupConsec (b :: rest)

/-- `sync`: resync the wallet, merge the observers' relevant txids
(sorted and deduped), announce the unconfirmed ids, then the confirmed
transactions grouped by block, then the tip.  Returns the announcement
trace of a pass that completes without failure. -/
def sync (b : Backend) (f : TxFilter) (cm_txids mon_txids : List Txid) :
    Res (List Event) :=
  match b.wallet_sync with
  | .error e => .error (.err (.bdk e))
  | .ok _ =>
    let relevant_txids := dedupConsec (List.insertionSort (· ≤ ·) (cm_txids ++ mon_txids))
    match get_unconfirmed b relevant_txids with
    | .error e => .error e
    | .ok unconfirmed_txids =>
      match get_confirmed_txs_by_block b f with
      | .error e => .error e
      | .ok confirmed_txs =>
        match get_tip b with
        | .error e => .error e
        | .ok (tip_height, tip_header) =>
          .ok (unconfirmed_txids.map Event.unconfirmedE
            ++ confirmed_txs.map (fun g => Event.confirmedE g.2.1 g.2.2 g.1)
            ++ [Event.bestBlockE tip_header tip_height])

/-- LDK `ConfirmationTarget` fee-priority tiers. -/
inductive ConfirmationTarget where
  | Background
  | Normal
  | HighPriority
deriving DecidableEq, Repr

/-- The target-block count the fee estimator uses for each tier. -/
def confirmationTargetBlocks : ConfirmationTarget → Nat
  | .Background => 6
  | .Normal => 3
  | .HighPriority => 1

/-- Default bdk `FeeRate` (the 1 sat-per-vbyte minimum relay fee) after
the `as u32` cast, substituted by `unwrap_or_default` on backend failure. -/
def feeRateDefault : Nat := 1

/-- `get_est_sat_per_1000_weight`: map the tier to a target-block count,
take the backend estimate (default on failure), and multiply the
sat-per-vbyte value by 250 in u32 arithmetic. -/
def get_est_sat_per_1000_weight (b : Backend) (confirmation_target : ConfirmationTarget) : Nat :=
  let target_blocks := confirmationTargetBlocks confirmation_target
  let sats_per_vbyte :=
    match b.estimate_fee target_blocks with
    | .ok v => v
    | .error _ => feeRateDefault
  (sats_per_vbyte * 250) % (2 ^ 32)

/-- `broadcast_transaction`: submit the transaction and discard the
backend result (`let _result = ...`). -/
def broadcast_transaction (b : Backend) (tx : Tx) : Unit :=
  let _result := b.broadcast tx
  ()

/-- `Filter::register_tx` on the wallet: append under the filter lock. -/
def register_tx (f : TxFilter) (txid : Txid) (script_pubkey : Script) : TxFilter :=
  f.register_tx txid script_pubkey

/-- `Filter::register_output` on the wallet: append under the filter lock
and return `none` without consulting the backend. -/
def register_output (f : TxFilter) (output : WatchedOutput) :
    TxFilter × Option (Nat × Tx) :=
  (f.register_output output, none)

/-- Predicate picking the unconfirmed announcements of a trace. -/
def isUncE : Event → Bool
  | .unconfirmedE _ => true
  | _ => false

/-- Predicate picking the confirmed-block announcements of a trace. -/
def isConfE : Event → Bool
  | .confirmedE _ _ _ => true
  | _ => false

/-- Predicate picking the best-block announcements of a trace. -/
def isBestE : Event → Bool
  | .bestBlockE _ _ => true
  | _ => false

/-- The txid announced by an unconfirmed event, when it is one. -/
def extractUnc : Event → Option Txid
  | .unconfirmedE t => some t
  | _ => none

/-- Concrete transaction with txid 1, used in the concrete scenarios. -/
def txA : Tx := ⟨1⟩

/-- Concrete transaction with txid 2, used in the concrete scenarios. -/
def txB : Tx := ⟨2⟩

/-- Concrete transaction with txid 5, used in the concrete scenarios. -/
def txC : Tx := ⟨5⟩

/-- Backend whose every operation fails with bdk error 42. -/
def backendFail : Backend where
  wallet_sync := .error ⟨42⟩
  get_tx_status := fun _ => .error ⟨42⟩
  get_script_tx_history := fun _ => .error ⟨42⟩
  get_position_in_block := fun _ _ => .error ⟨42⟩
  get_header := fun _ => .error ⟨42⟩
  get_height := .error ⟨42⟩
  estimate_fee := fun _ => .error ⟨42⟩
  broadcast := fun _ => .error ⟨42⟩

/-- Backend confirming txid 1 at height 100 position 5 (via script 1) and
txid 2 at height 100 position 2 (via script 2). -/
def backendC1 : Backend where
  wallet_sync := .ok ()
  get_tx_status := fun _ => .ok none
  get_script_tx_history := fun s =>
    if s = 1 then .ok [(⟨true, some 100⟩, txA)]
    else if s = 2 then .ok [(⟨true, some 100⟩, txB)]
    else .ok []
  get_position_in_block := fun t _ =>
    if t = 1 then .ok (some 5) else if t = 2 then .ok (some 2) else .ok none
  get_header := fun h => .ok h
  get_height := .ok 101
  estimate_fee := fun _ => .ok 25
  broadcast := fun _ => .ok ()

/-- Registry watching txid 1 under script 1 and txid 2 under script 2. -/
def filterC1 : TxFilter := ⟨[(1, 1), (2, 2)], []⟩

/-- Backend confirming txid 1 at height 10 and txid 2 at height 5, both
at position 0. -/
def backendC2 : Backend where
  wallet_sync := .ok ()
  get_tx_status := fun _ => .ok none
  get_script_tx_history := fun s =>
    if s = 1 then .ok [(⟨true, some 10⟩, txA)]
    else if s = 2 then .ok [(⟨true, some 5⟩, txB)]
    else .ok []
  get_position_in_block := fun _ _ => .ok (some 0)
  get_header := fun h => .ok h
  get_height := .ok 11
  estimate_fee := fun _ => .ok 25
  broadcast := fun _ => .ok ()

/-- Registry watching txid 1 under script 1 and txid 2 under script 2,
for the height-ordering scenario. -/
def filterC2 : TxFilter := ⟨[(1, 1), (2, 2)], []⟩

/-- Backend for the ordering scenario: txid 7 confirmed at height 100
position 2 via script 1, txid 3 unconfirmed, tip at height 101. -/
def backendC3 : Backend where
  wallet_sync := .ok ()
  get_tx_status := fun t =>
    if t = 7 then .ok (some ⟨true, some 100⟩) else .ok none
  get_script_tx_history := fun s =>
    if s = 1 then .ok [(⟨true, some 100⟩, ⟨7⟩)] else .ok []
  get_position_in_block := fun t _ =>
    if t = 7 then .ok (some 2) else .ok none
  get_header := fun h => .ok h
  get_height := .ok 101
  estimate_fee := fun _ => .ok 25
  broadcast := fun _ => .ok ()

/-- Registry watching txid 7 under script 1. -/
def filterC3 : TxFilter := ⟨[(7, 1)], []⟩

/-- The trace announced by `sync` in the ordering scenario. -/
def trC3 : List Event :=
  [Event.unconfirmedE 3,
   Event.confirmedE 100 [(2, ⟨7⟩)] 100,
   Event.bestBlockE 101 101]

/-- Backend with no confirmed activity and every status unknown. -/
def backendC4 : Backend where
  wallet_sync := .ok ()
  get_tx_status := fun _ => .ok none
  get_script_tx_history := fun _ => .ok []
  get_position_in_block := fun _ _ => .ok none
  get_header := fun h => .ok h
  get_height := .ok 101
  estimate_fee := fun _ => .ok 25
  broadcast := fun _ => .ok ()

/-- History with one confirmed entry of txid 2, one unconfirmed entry of
txid 1, then a confirmed entry of txid 1 at height 100. -/
def histC6 : List (TxStatus × Tx) :=
  [(⟨true, some 90⟩, txB), (⟨false, some 95⟩, txA), (⟨true, some 100⟩, txA)]

/-- Backend serving `histC6` for script 1. -/
def backendC6 : Backend where
  wallet_sync := .ok ()
  get_tx_status := fun _ => .ok none
  get_script_tx_history := fun s => if s = 1 then .ok histC6 else .ok []
  get_position_in_block := fun _ _ => .ok none
  get_header := fun h => .ok h
  get_height := .ok 101
  estimate_fee := fun _ => .ok 25
  broadcast := fun _ => .ok ()

/-- Backend confirming txid 1 at height 100 position 5 via script 1. -/
def backendC7 : Backend where
  wallet_sync := .ok ()
  get_tx_status := fun _ => .ok none
  get_script_tx_history := fun s =>
    if s = 1 then .ok [(⟨true, some 100⟩, txA)] else .ok []
  get_position_in_block := fun t _ =>
    if t = 1 then .ok (some 5) else .ok none
  get_header := fun h => .ok h
  get_height := .ok 101
  estimate_fee := fun _ => .ok 25
  broadcast := fun _ => .ok ()

/-- Like `backendC7` but with every position lookup unresolved. -/
def backendC7n : Backend where
  wallet_sync := .ok ()
  get_tx_status := fun _ => .ok none
  get_script_tx_history := fun s =>
    if s = 1 then .ok [(⟨true, some 100⟩, txA)] else .ok []
  get_position_in_block := fun _ _ => .ok none
  get_header := fun h => .ok h
  get_height := .ok 101
  estimate_fee := fun _ => .ok 25
  broadcast := fun _ => .ok ()

/-- Registry watching txid 1 under script 1, with no watched outputs. -/
def filterC7 : TxFilter := ⟨[(1, 1)], []⟩

/-- Backend whose script 1 already has confirmed history. -/
def backendC8 : Backend where
  wallet_sync := .ok ()
  get_tx_status := fun _ => .ok none
  get_script_tx_history := fun s =>
    if s = 1 then .ok [(⟨true, some 100⟩, txA)] else .ok []
  get_position_in_block := fun _ _ => .ok none
  get_header := fun h => .ok h
  get_height := .ok 101
  estimate_fee := fun _ => .ok 25
  broadcast := fun _ => .ok ()

/-- Backend estimating 7 sat-per-vbyte for every target. -/
def backendC9 : Backend where
  wallet_sync := .ok ()
  get_tx_status := fun _ => .ok none
  get_script_tx_history := fun _ => .ok []
  get_position_in_block := fun _ _ => .ok none
  get_header := fun h => .ok h
  get_height := .ok 101
  estimate_fee := fun _ => .ok 7
  broadcast := fun _ => .ok ()

/-- History whose only entry is confirmed with an absent height. -/
def histC10 : List (TxStatus × Tx) := [(⟨true, none⟩, txC)]

/-- Backend serving `histC10` for script 1. -/
def backendC10 : Backend where
  wallet_sync := .ok ()
  get_tx_status := fun _ => .ok none
  get_script_tx_history := fun s => if s = 1 then .ok histC10 else .ok []
  get_position_in_block := fun _ _ => .ok none
  get_header := fun h => .ok h
  get_height := .ok 101
  estimate_fee := fun _ => .ok 25
  broadcast := fun _ => .ok ()

/-! ### Helper lemmas about `mapMEx` -/

/-- Every element of a successful `mapMEx` result comes from applying the
function to some input element. -/
theorem mapMEx_ok_mem {α β : Type} {f : α → Res β} :
    ∀ {l : List α} {ys : List β}, mapMEx f l = .ok ys →
      ∀ y ∈ ys, ∃ x ∈ l, f x = .ok y := by
  intro l
  induction l with
  | nil =>
    intro ys h y hy
    simp [mapMEx] at h
    subst h
    cases hy
  | cons a t ih =>
    intro ys h y hy
    cases hfa : f a with
    | error e => simp [mapMEx, hfa] at h
    | ok v =>
      cases hrest : mapMEx f t with
      | error e => simp [mapMEx, hfa, hrest] at h
      | ok vs =>
        simp [mapMEx, hfa, hrest] at h
        subst h
        rcases List.mem_cons.mp hy with rfl | hyt
        · exact ⟨a, List.mem_cons_self a t, hfa⟩
        · obtain ⟨x, hx, hfx⟩ := ih hrest y hyt
          exact ⟨x, List.mem_cons_of_mem a hx, hfx⟩

/-- `mapMEx` succeeds when the function succeeds on every element. -/
theorem mapMEx_ok_of_all {α β : Type} {f : α → Res β} :
    ∀ {l : List α}, (∀ x ∈ l, ∃ y, f x = .ok y) → ∃ ys, mapMEx f l = .ok ys := by
  intro l
  induction l with
  | nil => exact fun _ => ⟨[], rfl⟩
  | cons a t ih =>
    intro hall
    obtain ⟨y, hy⟩ := hall a (List.mem_cons_self a t)
    obtain ⟨ys, hys⟩ := ih fun x hx => hall x (List.mem_cons_of_mem a hx)
    exact ⟨y :: ys, by simp [mapMEx, hy, hys]⟩

/-- When the function can only succeed or panic, one panicking element
makes the whole `mapMEx` panic. -/
theorem mapMEx_panic_of_mem {α β : Type} {f : α → Res β}
    (hf : ∀ y, f y = .error Fail.panic ∨ ∃ v, f y = .ok v) :
    ∀ (l : List α) (x : α), x ∈ l → f x = .error Fail.panic →
      mapMEx f l = .error Fail.panic := by
  intro l
  induction l with
  | nil => intro x hx _; exact absurd hx (List.not_mem_nil x)
  | cons a t ih =>
    intro x hx hfx
    rcases hf a with ha | ⟨v, hv⟩
    · simp [mapMEx, ha]
    · rcases List.mem_cons.mp hx with rfl | hxt
      · exact Except.noConfusion (hv.symm.trans hfx)
      · simp [mapMEx, hv, ih x hxt hfx]

/-! ### C1 -/

/-- C1: the claim that every per-height bucket passed to
`transactions_confirmed` is sorted by ascending position fails on the
code: with txid 1 (position 5) watched before txid 2 (position 2), both
confirmed in block 100, the bucket is built in insertion order
`[(5, txA), (2, txB)]` and announced unsorted — the source performs no
per-bucket sort. -/
theorem c1_bucket_not_sorted_by_position :
    get_confirmed_txs_by_block backendC1 filterC1 =
      .ok [(100, 100, [(5, txA), (2, txB)])] ∧
    sync backendC1 filterC1 [] [] =
      .ok [Event.confirmedE 100 [(5, txA), (2, txB)] 100,
           Event.bestBlockE 101 101] ∧
    ¬ List.Sorted (· ≤ ·) ([(5, txA), (2, txB)].map Prod.fst) :=
  ⟨rfl, rfl, by decide⟩

/-! ### C2 -/

/-- C2: the claim that block announcements are delivered in ascending
height order fails on the code: the grouping `HashMap` is iterated with
no height sort (modelled by key-insertion order), so with txid 1
confirmed at height 10 registered before txid 2 confirmed at height 5,
the pass announces height 10 before height 5. -/
theorem c2_blocks_not_ascending_by_height :
    get_confirmed_txs_by_block backendC2 filterC2 =
      .ok [(10, 10, [(0, txA)]), (5, 5, [(0, txB)])] ∧
    sync backendC2 filterC2 [] [] =
      .ok [Event.confirmedE 10 [(0, txA)] 10,
           Event.confirmedE 5 [(0, txB)] 5,
           Event.bestBlockE 11 11] ∧
    ¬ List.Sorted (· ≤ ·)
      (([(10, 10, [(0, txA)]), (5, 5, [(0, txB)])] :
        List (Nat × Header × List (Nat × Tx))).map Prod.fst) :=
  ⟨rfl, rfl, by decide⟩

/-! ### C5 -/

/-- C5 counterexample: on a backend whose every call fails, the fee
estimator returns the default-derived value 250 instead of surfacing the
failure, and `broadcast_transaction` discards the failed broadcast
result — refuting the claim that these operations surface backend
failures. -/
theorem c5_fee_and_broadcast_swallow_errors :
    backendFail.estimate_fee 3 = .error ⟨42⟩ ∧
    get_est_sat_per_1000_weight backendFail .Normal = 250 ∧
    backendFail.broadcast txA = .error ⟨42⟩ ∧
    broadcast_transaction backendFail txA = () :=
  ⟨rfl, rfl, rfl, rfl⟩

/-- C5 amended: the fallible wallet-facing operations return result
types and propagate a backend failure unchanged with no retry, but
`get_est_sat_per_1000_weight` substitutes the default fee rate when the
backend estimate fails, and `broadcast_transaction` discards the backend
result entirely. -/
theorem c5_error_propagation_amended :
    (∀ (b : Backend) (f : TxFilter) (cm mon : List Txid) (e : BdkErr),
      b.wallet_sync = .error e →
      sync b f cm mon = .error (.err (.bdk e))) ∧
    (∀ (b : Backend) (txid : Txid) (s : Script) (e : BdkErr),
      b.get_script_tx_history s = .error e →
      get_confirmed_tx b txid s = .error (.err (.bdk e))) ∧
    (∀ (b : Backend) (e : BdkErr),
      b.get_height = .error e →
      get_tip b = .error (.err (.bdk e))) ∧
    (∀ (b : Backend) (e : BdkErr),
      b.estimate_fee 3 = .error e →
      get_est_sat_per_1000_weight b .Normal = (feeRateDefault * 250) % (2 ^ 32)) ∧
    (∀ (b : Backend) (tx : Tx), broadcast_transaction b tx = ()) := by
  refine ⟨?_, ?_, ?_, ?_, ?_⟩
  · intro b f cm mon e he
    simp [sync, he]
  · intro b txid s e he
    simp [get_confirmed_tx, he]
  · intro b e he
    simp [get_tip, he]
  · intro b e he
    simp [get_est_sat_per_1000_weight, confirmationTargetBlocks, he]
  · intro b tx
    rfl

/-- C5 witness: the amended propagation and swallowing behaviour at the
all-failing backend. -/
theorem c5_error_propagation_amended_witness :
    sync backendFail TxFilter.new [] [] = .error (.err (.bdk ⟨42⟩)) ∧
    get_confirmed_tx backendFail 1 1 = .error (.err (.bdk ⟨42⟩)) ∧
    get_tip backendFail = .error (.err (.bdk ⟨42⟩)) ∧
    get_est_sat_per_1000_weight backendFail .Normal =
      (feeRateDefault * 250) % (2 ^ 32) ∧
    broadcast_transaction backendFail txA = () :=
  ⟨c5_error_propagation_amended.1 backendFail TxFilter.new [] [] ⟨42⟩ rfl,
   c5_error_propagation_amended.2.1 backendFail 1 1 ⟨42⟩ rfl,
   c5_error_propagation_amended.2.2.1 backendFail ⟨42⟩ rfl,
   c5_error_propagation_amended.2.2.2.1 backendFail ⟨42⟩ rfl,
   c5_error_propagation_amended.2.2.2.2 backendFail txA⟩

/-! ### C8 -/

/-- C8: `register_output` appends the output to the watch list, leaves
the transaction watch list untouched, and always returns nothing, even
when the backend already holds matching confirmed history for the
output's script. -/
theorem c8_register_output_appends_returns_none
    (b : Backend) (f : TxFilter) (o : WatchedOutput)
    (hist : List (TxStatus × Tx)) (st : TxStatus) (tx : Tx)
    (hh : b.get_script_tx_history o.script_pubkey = .ok hist)
    (hm : (st, tx) ∈ hist) (hc : st.confirmed = true) :
    (register_output f o).2 = none ∧
    (register_output f o).1.watched_outputs = f.watched_outputs ++ [o] ∧
    (register_output f o).1.watched_transactions = f.watched_transactions :=
  ⟨rfl, rfl, rfl⟩

/-- C8 witness: registering an output whose script 1 already has
confirmed backend history still returns nothing and appends. -/
theorem c8_register_output_witness :
    (register_output TxFilter.new ⟨0, 1⟩).2 = none ∧
    (register_output TxFilter.new ⟨0, 1⟩).1.watched_outputs = [⟨0, 1⟩] ∧
    (register_output TxFilter.new ⟨0, 1⟩).1.watched_transactions = [] :=
  c8_register_output_appends_returns_none backendC8 TxFilter.new ⟨0, 1⟩
    [(⟨true, some 100⟩, txA)] ⟨true, some 100⟩ txA rfl (by decide) rfl

/-! ### C9 -/

/-- C9: the fee estimator maps Background, Normal and HighPriority to
target-block counts 6, 3 and 1, and for a successful backend estimate
returns the sat-per-vbyte value multiplied by 250 modulo `2 ^ 32`. -/
theorem c9_fee_tier_mapping (b : Backend) (sats : Nat) :
    confirmationTargetBlocks .Background = 6 ∧
    confirmationTargetBlocks .Normal = 3 ∧
    confirmationTargetBlocks .HighPriority = 1 ∧
    (b.estimate_fee 6 = .ok sats →
      get_est_sat_per_1000_weight b .Background = (sats * 250) % (2 ^ 32)) ∧
    (b.estimate_fee 3 = .ok sats →
      get_est_sat_per_1000_weight b .Normal = (sats * 250) % (2 ^ 32)) ∧
    (b.estimate_fee 1 = .ok sats →
      get_est_sat_per_1000_weight b .HighPriority = (sats * 250) % (2 ^ 32)) := by
  refine ⟨rfl, rfl, rfl, ?_, ?_, ?_⟩ <;>
    intro h <;>
    simp [get_est_sat_per_1000_weight, confirmationTargetBlocks, h]

/-- C9 witness: a backend estimating 7 sat-per-vbyte yields 1750 for all
three tiers. -/
theorem c9_fee_tier_mapping_witness :
    get_est_sat_per_1000_weight backendC9 .Background = (7 * 250) % (2 ^ 32) ∧
    get_est_sat_per_1000_weight backendC9 .Normal = (7 * 250) % (2 ^ 32) ∧
    get_est_sat_per_1000_weight backendC9 .HighPriority = (7 * 250) % (2 ^ 32) :=
  ⟨(c9_fee_tier_mapping backendC9 7).2.2.2.1 rfl,
   (c9_fee_tier_mapping backendC9 7).2.2.2.2.1 rfl,
   (c9_fee_tier_mapping backendC9 7).2.2.2.2.2 rfl⟩

/-! ### C10 -/

/-- C10 counterexample: a history whose only entry is confirmed with an
absent height does not make `get_confirmed_tx` panic when the requested
txid does not match that entry — the lookup returns `ok none`, refuting
the claim that any such history panics the operation. -/
theorem c10_no_panic_despite_absent_height :
    ((⟨true, none⟩ : TxStatus), txC) ∈ histC10 ∧
    (⟨true, none⟩ : TxStatus).confirmed = true ∧
    (⟨true, none⟩ : TxStatus).block_height = none ∧
    backendC10.get_script_tx_history 1 = .ok histC10 ∧
    get_confirmed_tx backendC10 7 1 = .ok none :=
  ⟨by decide, rfl, rfl, rfl, rfl⟩

/-- C10 amended: both confirmed-transaction lookups are total under the
precondition that every confirmed history entry carries a height;
without it, `get_confirmed_txs_from_script_history` panics whenever the
history contains a confirmed entry with an absent height, while
`get_confirmed_tx` panics exactly when the first entry that is confirmed
and matches the requested txid has an absent height. -/
theorem c10_height_unwrap_characterization :
    (∀ history : List (TxStatus × Tx),
      (∀ e ∈ history, e.1.confirmed = true → (e.1.block_height).isSome = true) →
      ∃ v, get_confirmed_txs_from_script_history history = .ok v) ∧
    (∀ (b : Backend) (txid : Txid) (s : Script) (history : List (TxStatus × Tx)),
      b.get_script_tx_history s = .ok history →
      (∀ e ∈ history, e.1.confirmed = true → (e.1.block_height).isSome = true) →
      ∃ v, get_confirmed_tx b txid s = .ok v) ∧
    (∀ (history : List (TxStatus × Tx)) (st : TxStatus) (tx : Tx),
      (st, tx) ∈ history → st.confirmed = true → st.block_height = none →
      get_confirmed_txs_from_script_history history = .error Fail.panic) ∧
    (∀ (b : Backend) (txid : Txid) (s : Script) (history : List (TxStatus × Tx))
        (e : TxStatus × Tx),
      b.get_script_tx_history s = .ok history →
      history.find? (fun e => e.1.confirmed && e.2.txid == txid) = some e →
      e.1.block_height = none →
      get_confirmed_tx b txid s = .error Fail.panic) := by
  refine ⟨?_, ?_, ?_, ?_⟩
  · intro history hall
    apply mapMEx_ok_of_all
    intro e he
    have hmem := (List.mem_filter.mp he).1
    have hconf : e.1.confirmed = true := (List.mem_filter.mp he).2
    have hsome := hall e hmem hconf
    cases hbh : e.1.block_height with
    | none => rw [hbh] at hsome; simp at hsome
    | some h => exact ⟨(h, e.2), by simp [hbh]⟩
  · intro b txid s history hh hall
    cases hf : history.find? (fun e => e.1.confirmed && e.2.txid == txid) with
    | none => exact ⟨none, by simp only [get_confirmed_tx, hh, hf]⟩
    | some e =>
      have hmem := List.mem_of_find?_eq_some hf
      have hpred := List.find?_some hf
      simp only [Bool.and_eq_true, beq_iff_eq] at hpred
      have hsome := hall e hmem hpred.1
      cases hbh : e.1.block_height with
      | none => rw [hbh] at hsome; simp at hsome
      | some h =>
        exact ⟨some (h, e.2), by simp only [get_confirmed_tx, hh, hf, hbh]⟩
  · intro history st tx hmem hconf hnone
    apply mapMEx_panic_of_mem _ _ (st, tx)
    · exact List.mem_filter.mpr ⟨hmem, hconf⟩
    · simp [hnone]
    · intro y
      cases hbh : y.1.block_height with
      | none => left; simp [hbh]
      | some h => right; exact ⟨(h, y.2), by simp [hbh]⟩
  · intro b txid s history e hh hfind hnone
    simp only [get_confirmed_tx, hh, hfind, hnone]

/-- C10 witness: the amended characterization at concrete histories —
totality when heights are present, and both panic modes when a matching
confirmed entry lacks its height. -/
theorem c10_height_unwrap_witness :
    (∃ v, get_confirmed_txs_from_script_history [(⟨true, some 3⟩, txA)] = .ok v) ∧
    (∃ v, get_confirmed_tx backendC6 1 1 = .ok v) ∧
    get_confirmed_txs_from_script_history histC10 = .error Fail.panic ∧
    get_confirmed_tx backendC10 5 1 = .error Fail.panic :=
  ⟨c10_height_unwrap_characterization.1 [(⟨true, some 3⟩, txA)] (by decide),
   c10_height_unwrap_characterization.2.1 backendC6 1 1 histC6 rfl (by decide),
   c10_height_unwrap_characterization.2.2.1 histC10 ⟨true, none⟩ txC (by decide) rfl rfl,
   c10_height_unwrap_characterization.2.2.2 backendC10 5 1 histC10
     (⟨true, none⟩, txC) rfl rfl rfl⟩

/-! ### C6 -/

/-- `find?` returns the element at the first index satisfying the
predicate when all earlier indices fail it. -/
theorem find?_first_eq {α : Type} (p : α → Bool) :
    ∀ (l : List α) (i : Nat) (hi : i < l.length),
      p (l.get ⟨i, hi⟩) = true →
      (∀ (j : Nat) (hj : j < l.length), j < i → p (l.get ⟨j, hj⟩) = false) →
      l.find? p = some (l.get ⟨i, hi⟩) := by
  intro l
  induction l with
  | nil => intro i hi; exact absurd hi (Nat.not_lt_zero i)
  | cons a t ih =>
    intro i hi hp hprev
    cases i with
    | zero =>
      simp only [List.get] at hp
      simp [List.find?, hp]
    | succ n =>
      have ha : p a = false := hprev 0 (Nat.succ_pos _) (Nat.succ_pos n)
      simp only [List.get] at hp
      simp only [List.find?, ha]
      exact ih n (Nat.lt_of_succ_lt_succ hi) hp
        (fun j hj hjn => hprev (j + 1) (Nat.succ_lt_succ hj) (Nat.succ_lt_succ hjn))

/-- C6: `get_confirmed_tx` returns nothing when no history entry is both
confirmed and of the requested txid (even if other confirmed entries
exist), and otherwise returns the first such entry's transaction paired
with that entry's block height. -/
theorem c6_get_confirmed_tx_first_match
    (b : Backend) (txid : Txid) (s : Script) (history : List (TxStatus × Tx))
    (hh : b.get_script_tx_history s = .ok history) :
    ((∀ e ∈ history, ¬(e.1.confirmed = true ∧ e.2.txid = txid)) →
      get_confirmed_tx b txid s = .ok none) ∧
    (∀ (i : Nat) (hi : i < history.length) (ht : Nat),
      (history.get ⟨i, hi⟩).1.confirmed = true →
      (history.get ⟨i, hi⟩).2.txid = txid →
      (history.get ⟨i, hi⟩).1.block_height = some ht →
      (∀ (j : Nat) (hj : j < history.length), j < i →
        ¬((history.get ⟨j, hj⟩).1.confirmed = true ∧
          (history.get ⟨j, hj⟩).2.txid = txid)) →
      get_confirmed_tx b txid s = .ok (some (ht, (history.get ⟨i, hi⟩).2))) := by
  constructor
  · intro hnone
    have hfind : history.find? (fun e => e.1.confirmed && e.2.txid == txid) = none := by
      rw [List.find?_eq_none]
      intro e he
      have := hnone e he
      simp only [Bool.and_eq_true, beq_iff_eq]
      exact fun hc => this hc
    simp only [get_confirmed_tx, hh, hfind]
  · intro i hi ht hconf htxid hbh hprev
    have hfind : history.find? (fun e => e.1.confirmed && e.2.txid == txid)
        = some (history.get ⟨i, hi⟩) := by
      apply find?_first_eq
      · simp only [Bool.and_eq_true, beq_iff_eq]
        exact ⟨hconf, htxid⟩
      · intro j hj hji
        have hthis := hprev j hj hji
        rw [Bool.eq_false_iff]
        intro hcon
        simp only [Bool.and_eq_true, beq_iff_eq] at hcon
        exact hthis hcon
    simp only [get_confirmed_tx, hh, hfind, hbh]

/-- C6 witness: in a history whose first entry is a confirmed unrelated
transaction and whose second entry is an unconfirmed entry of the
requested transaction, the lookup returns the third entry (height 100);
and a txid absent from the history yields nothing even though confirmed
entries exist. -/
theorem c6_get_confirmed_tx_first_match_witness :
    get_confirmed_tx backendC6 1 1 = .ok (some (100, (histC6.get ⟨2, by decide⟩).2)) ∧
    get_confirmed_tx backendC6 9 1 = .ok none :=
  ⟨(c6_get_confirmed_tx_first_match backendC6 1 1 histC6 rfl).2 2 (by decide) 100
      (by decide) (by decide) (by decide) (by decide),
   (c6_get_confirmed_tx_first_match backendC6 9 1 histC6 rfl).1 (by decide)⟩

/-! ### C3 -/

/-- Destructuring of a successful sync pass into its three announcement
segments. -/
theorem sync_ok_shape (b : Backend) (f : TxFilter) (cm mon : List Txid)
    (tr : List Event) (h : sync b f cm mon = .ok tr) :
    ∃ u c th hd,
      get_unconfirmed b (dedupConsec (List.insertionSort (· ≤ ·) (cm ++ mon))) = .ok u ∧
      get_confirmed_txs_by_block b f = .ok c ∧
      get_tip b = .ok (th, hd) ∧
      tr = u.map Event.unconfirmedE
        ++ c.map (fun g => Event.confirmedE g.2.1 g.2.2 g.1)
        ++ [Event.bestBlockE hd th] := by
  cases hws : b.wallet_sync with
  | error e => exact absurd h (by simp [sync, hws])
  | ok u0 =>
    cases hu : get_unconfirmed b (dedupConsec (List.insertionSort (· ≤ ·) (cm ++ mon))) with
    | error e => exact absurd h (by simp [sync, hws, hu])
    | ok u =>
      cases hc : get_confirmed_txs_by_block b f with
      | error e => exact absurd h (by simp [sync, hws, hu, hc])
      | ok c =>
        cases ht : get_tip b with
        | error e => exact absurd h (by simp [sync, hws, hu, hc, ht])
        | ok tp =>
          obtain ⟨th, hd⟩ := tp
          simp only [sync, hws, hu, hc, ht, Except.ok.injEq] at h
          exact ⟨u, c, th, hd, rfl, rfl, rfl, h.symm⟩

/-- A filter keeping every image of a map keeps the whole mapped list. -/
theorem filter_map_of_true {α : Type} {p : Event → Bool} {g : α → Event}
    (hpf : ∀ x, p (g x) = true) (l : List α) : (l.map g).filter p = l.map g := by
  induction l with
  | nil => rfl
  | cons a t ih => simp [hpf, ih]

/-- A filter rejecting every image of a map empties the mapped list. -/
theorem filter_map_of_false {α : Type} {p : Event → Bool} {g : α → Event}
    (hpf : ∀ x, p (g x) = false) (l : List α) : (l.map g).filter p = [] := by
  induction l with
  | nil => rfl
  | cons a t ih => simp [hpf, ih]

/-- C3: the trace of a sync pass that completes without backend error is
exactly its unconfirmed announcements, then its confirmed-block
announcements, then its best-block announcements — so every
`transaction_unconfirmed` precedes the first `transactions_confirmed`,
and `best_block_updated` is issued exactly once, after everything else. -/
theorem c3_sync_step_order (b : Backend) (f : TxFilter) (cm mon : List Txid)
    (tr : List Event) (h : sync b f cm mon = .ok tr) :
    tr = tr.filter isUncE ++ tr.filter isConfE ++ tr.filter isBestE ∧
    (tr.filter isBestE).length = 1 := by
  obtain ⟨u, c, th, hd, _, _, _, htr⟩ := sync_ok_shape b f cm mon tr h
  subst htr
  constructor
  · simp only [List.filter_append,
      filter_map_of_true (p := isUncE) (g := Event.unconfirmedE) (fun _ => rfl),
      filter_map_of_false (p := isConfE) (g := Event.unconfirmedE) (fun _ => rfl),
      filter_map_of_false (p := isBestE) (g := Event.unconfirmedE) (fun _ => rfl),
      filter_map_of_false (p := isUncE)
        (g := fun g : Nat × Header × List (Nat × Tx) =>
          Event.confirmedE g.2.1 g.2.2 g.1) (fun _ => rfl),
      filter_map_of_true (p := isConfE)
        (g := fun g : Nat × Header × List (Nat × Tx) =>
          Event.confirmedE g.2.1 g.2.2 g.1) (fun _ => rfl),
      filter_map_of_false (p := isBestE)
        (g := fun g : Nat × Header × List (Nat × Tx) =>
          Event.confirmedE g.2.1 g.2.2 g.1) (fun _ => rfl)]
    simp [isUncE, isConfE, isBestE]
  · simp only [List.filter_append,
      filter_map_of_false (p := isBestE) (g := Event.unconfirmedE) (fun _ => rfl),
      filter_map_of_false (p := isBestE)
        (g := fun g : Nat × Header × List (Nat × Tx) =>
          Event.confirmedE g.2.1 g.2.2 g.1) (fun _ => rfl)]
    simp [isBestE]

/-- C3 witness: the step ordering at a concrete pass with one
unconfirmed id, one confirmed block and the tip update. -/
theorem c3_sync_step_order_witness :
    (trC3 = trC3.filter isUncE ++ trC3.filter isConfE ++ trC3.filter isBestE) ∧
    (trC3.filter isBestE).length = 1 :=
  c3_sync_step_order backendC3 filterC3 [7] [7, 3] trC3 rfl

/-! ### C4 -/

/-- Every element of `dedupConsec l` comes from `l`. -/
theorem dedupConsec_subset : ∀ (l : List Txid) (x : Txid), x ∈ dedupConsec l → x ∈ l := by
  intro l
  induction l with
  | nil => intro x hx; simp [dedupConsec] at hx
  | cons a t ih =>
    cases t with
    | nil => intro x hx; simpa [dedupConsec] using hx
    | cons b rest =>
      intro x hx
      by_cases hab : a = b
      · simp only [dedupConsec, if_pos hab] at hx
        exact List.mem_cons_of_mem a (ih x hx)
      · simp only [dedupConsec, if_neg hab] at hx
        rcases List.mem_cons.mp hx with rfl | hx'
        · exact List.mem_cons_self x (b :: rest)
        · exact List.mem_cons_of_mem a (ih x hx')

/-- On a weakly sorted list, dropping consecutive duplicates yields a
strictly sorted list. -/
theorem dedupConsec_sorted_lt :
    ∀ l : List Txid, List.Sorted (· ≤ ·) l → List.Sorted (· < ·) (dedupConsec l) := by
  intro l
  induction l with
  | nil => intro _; simp [dedupConsec]
  | cons a t ih =>
    cases t with
    | nil => intro _; simp [dedupConsec]
    | cons b rest =>
      intro hs
      have hs' : List.Sorted (· ≤ ·) (b :: rest) := hs.of_cons
      by_cases hab : a = b
      · simp only [dedupConsec, if_pos hab]
        exact ih hs'
      · simp only [dedupConsec, if_neg hab]
        rw [List.sorted_cons]
        refine ⟨?_, ih hs'⟩
        intro x hx
        have hxmem : x ∈ b :: rest := dedupConsec_subset _ x hx
        have hab' : a < b :=
          lt_of_le_of_ne ((List.sorted_cons.mp hs).1 b (List.mem_cons_self b rest)) hab
        rcases List.mem_cons.mp hxmem with rfl | hxr
        · exact hab'
        · exact lt_of_lt_of_le hab' ((List.sorted_cons.mp hs').1 x hxr)

/-- Sorting then dropping consecutive duplicates produces a list without
duplicates. -/
theorem dedupConsec_nodup (l : List Txid) (hs : List.Sorted (· ≤ ·) l) :
    (dedupConsec l).Nodup :=
  (dedupConsec_sorted_lt l hs).imp fun hlt => Nat.ne_of_lt hlt

/-- A successful status collect keeps the queried txids as first
components, in order. -/
theorem mapMEx_status_fst (b : Backend) :
    ∀ (l : List Txid) (st : List (Txid × Bool)),
      mapMEx (augment_txid_with_confirmation_status b) l = .ok st →
      st.map Prod.fst = l := by
  intro l
  induction l with
  | nil => intro st h; simp [mapMEx] at h; subst h; rfl
  | cons a t ih =>
    intro st h
    cases hfa : augment_txid_with_confirmation_status b a with
    | error e => simp [mapMEx, hfa] at h
    | ok y =>
      cases hrest : mapMEx (augment_txid_with_confirmation_status b) t with
      | error e => simp [mapMEx, hfa, hrest] at h
      | ok ys =>
        simp only [mapMEx, hfa, hrest] at h
        have hy : y.1 = a := by
          cases hbs : b.get_tx_status a with
          | error e => simp [augment_txid_with_confirmation_status, hbs] at hfa
          | ok o =>
            cases o with
            | none =>
              simp only [augment_txid_with_confirmation_status, hbs,
                Except.ok.injEq] at hfa
              rw [← hfa]
            | some s =>
              simp only [augment_txid_with_confirmation_status, hbs,
                Except.ok.injEq] at hfa
              rw [← hfa]
        simp only [Except.ok.injEq] at h
        subst h
        simp [hy, ih ys hrest]

/-- A successful `get_unconfirmed` on a duplicate-free id list is
duplicate-free. -/
theorem get_unconfirmed_nodup {b : Backend} {l u : List Txid}
    (h : get_unconfirmed b l = .ok u) (hl : l.Nodup) : u.Nodup := by
  cases hm : mapMEx (augment_txid_with_confirmation_status b) l with
  | error e => simp [get_unconfirmed, hm] at h
  | ok st =>
    simp only [get_unconfirmed, hm, Except.ok.injEq] at h
    have hfst := mapMEx_status_fst b l st hm
    have hsub : List.Sublist ((st.filter fun p => !p.2).map Prod.fst)
        (st.map Prod.fst) :=
      (List.filter_sublist st).map Prod.fst
    rw [hfst] at hsub
    rw [← h]
    exact hl.sublist hsub

/-- The unconfirmed txids of a trace are its first segment. -/
theorem filterMap_extractUnc (u : List Txid)
    (c : List (Nat × Header × List (Nat × Tx))) (hd th : Nat) :
    (u.map Event.unconfirmedE
      ++ c.map (fun g => Event.confirmedE g.2.1 g.2.2 g.1)
      ++ [Event.bestBlockE hd th]).filterMap extractUnc = u := by
  rw [List.filterMap_append, List.filterMap_append]
  have h1 : (u.map Event.unconfirmedE).filterMap extractUnc = u := by
    induction u with
    | nil => rfl
    | cons a t ih => simp [extractUnc, ih]
  have h2 : (c.map fun g => Event.confirmedE g.2.1 g.2.2 g.1).filterMap extractUnc = [] := by
    induction c with
    | nil => rfl
    | cons a t ih => simp [extractUnc, ih]
  simp [h1, h2, extractUnc]

/-- C4: in any sync pass that completes, each txid is announced
unconfirmed at most once — the merged relevant-id lists are sorted and
deduplicated before the unconfirmed subset is taken. -/
theorem c4_unconfirmed_no_duplicates (b : Backend) (f : TxFilter)
    (cm mon : List Txid) (tr : List Event) (h : sync b f cm mon = .ok tr) :
    (tr.filterMap extractUnc).Nodup := by
  obtain ⟨u, c, th, hd, hu, _, _, htr⟩ := sync_ok_shape b f cm mon tr h
  subst htr
  rw [filterMap_extractUnc]
  exact get_unconfirmed_nodup hu
    (dedupConsec_nodup _ (List.sorted_insertionSort _ _))

/-- C4 witness: overlapping, repetitious relevant-id lists `[7, 3, 3]`
and `[3, 7]` yield a duplicate-free unconfirmed announcement set. -/
theorem c4_unconfirmed_no_duplicates_witness :
    (([Event.unconfirmedE 3, Event.unconfirmedE 7,
       Event.bestBlockE 101 101] : List Event).filterMap extractUnc).Nodup :=
  c4_unconfirmed_no_duplicates backendC4 TxFilter.new [7, 3, 3] [3, 7]
    [Event.unconfirmedE 3, Event.unconfirmedE 7, Event.bestBlockE 101 101] rfl

/-! ### C7 -/

/-- A successful position augmentation that yields a record fixes its
height and transaction and certifies the backend position lookup. -/
theorem augment_with_position_ok_some (b : Backend) (h : Nat) (tx : Tx)
    (t : Nat × Tx × Nat)
    (ha : augment_with_position b h tx = .ok (some t)) :
    t.1 = h ∧ t.2.1 = tx ∧ b.get_position_in_block tx.txid h = .ok (some t.2.2) := by
  cases hb : b.get_position_in_block tx.txid h with
  | error e => simp [augment_with_position, hb] at ha
  | ok position =>
    cases position with
    | none => simp [augment_with_position, hb] at ha
    | some pos =>
      simp only [augment_with_position, hb, Option.map, Except.ok.injEq,
        Option.some.injEq] at ha
      rw [← ha]
      exact ⟨rfl, rfl, rfl⟩

/-- A successful header augmentation keeps the height and the bucket. -/
theorem augment_with_header_ok (b : Backend) (h : Nat)
    (lst : List (Nat × Tx)) (e : Nat × Header × List (Nat × Tx))
    (ha : augment_with_header b h lst = .ok e) : e.1 = h ∧ e.2.2 = lst := by
  cases hb : b.get_header h with
  | error er => simp [augment_with_header, hb] at ha
  | ok header =>
    simp only [augment_with_header, hb, Except.ok.injEq] at ha
    rw [← ha]
    exact ⟨rfl, rfl⟩

/-- Bucket membership after one `insertGrouped` step: the record was
already in some bucket, or it is the inserted pair at the inserted key. -/
theorem insertGrouped_mem_bucket :
    ∀ (m : List (Nat × List (Nat × Tx))) (h : Nat) (p : Nat × Tx)
      (k : Nat) (lst : List (Nat × Tx)) (q : Nat × Tx),
      (k, lst) ∈ insertGrouped m h p → q ∈ lst →
      (∃ lst', (k, lst') ∈ m ∧ q ∈ lst') ∨ (k = h ∧ q = p) := by
  intro m
  induction m with
  | nil =>
    intro h p k lst q hk hq
    simp only [insertGrouped, List.mem_singleton] at hk
    obtain ⟨hk1, hk2⟩ := Prod.mk.injEq .. ▸ hk
    right
    subst hk1
    rw [hk2] at hq
    exact ⟨rfl, List.mem_singleton.mp hq⟩
  | cons hd rest ih =>
    intro h p k lst q hk hq
    obtain ⟨k0, l0⟩ := hd
    by_cases hk0 : k0 = h
    · simp only [insertGrouped, if_pos hk0] at hk
      rcases List.mem_cons.mp hk with hhead | htail
      · obtain ⟨h1, h2⟩ := Prod.mk.injEq .. ▸ hhead
        subst h1
        rw [h2] at hq
        rcases List.mem_append.mp hq with hl | hp
        · exact Or.inl ⟨l0, List.mem_cons_self _ _, hl⟩
        · exact Or.inr ⟨hk0, List.mem_singleton.mp hp⟩
      · exact Or.inl ⟨lst, List.mem_cons_of_mem _ htail, hq⟩
    · simp only [insertGrouped, if_neg hk0] at hk
      rcases List.mem_cons.mp hk with hhead | htail
      · obtain ⟨h1, h2⟩ := Prod.mk.injEq .. ▸ hhead
        subst h1
        rw [h2] at hq
        exact Or.inl ⟨l0, List.mem_cons_self _ _, hq⟩
      · rcases ih h p k lst q htail hq with ⟨lst', hl', hq'⟩ | hr
        · exact Or.inl ⟨lst', List.mem_cons_of_mem _ hl', hq'⟩
        · exact Or.inr hr

/-- Bucket membership after the whole grouping fold: the record was in
the initial map, or its (height, tx, position) triple was an input. -/
theorem foldl_insertGrouped_mem :
    ∀ (ts : List (Nat × Tx × Nat)) (m0 : List (Nat × List (Nat × Tx)))
      (k : Nat) (lst : List (Nat × Tx)) (q : Nat × Tx),
      (k, lst) ∈ ts.foldl (fun m t => insertGrouped m t.1 (t.2.2, t.2.1)) m0 →
      q ∈ lst →
      (∃ lst', (k, lst') ∈ m0 ∧ q ∈ lst') ∨ (k, q.2, q.1) ∈ ts := by
  intro ts
  induction ts with
  | nil =>
    intro m0 k lst q hk hq
    exact Or.inl ⟨lst, hk, hq⟩
  | cons t ts ih =>
    intro m0 k lst q hk hq
    rcases ih (insertGrouped m0 t.1 (t.2.2, t.2.1)) k lst q hk hq with
      ⟨lst', hl', hq'⟩ | hr
    · rcases insertGrouped_mem_bucket m0 t.1 (t.2.2, t.2.1) k lst' q hl' hq' with
        hold | ⟨hkh, hqp⟩
      · exact Or.inl hold
      · right
        subst hkh
        rw [hqp]
        exact List.mem_cons_self t ts
    · exact Or.inr (List.mem_cons_of_mem t hr)

/-- Every (position, transaction) pair announced by the block grouper
carries the position the backend resolved for it at that height. -/
theorem gctbb_positions (b : Backend) (f : TxFilter)
    (bs : List (Nat × Header × List (Nat × Tx)))
    (h : get_confirmed_txs_by_block b f = .ok bs) :
    ∀ e ∈ bs, ∀ pt ∈ e.2.2,
      b.get_position_in_block pt.2.txid e.1 = .ok (some pt.1) := by
  cases h1 : mapMEx (fun p => get_confirmed_tx b p.1 p.2) f.watched_transactions with
  | error er => simp [get_confirmed_txs_by_block, h1] at h
  | ok cto =>
    cases h2 : mapMEx (get_confirmed_txs b) f.watched_outputs with
    | error er => simp [get_confirmed_txs_by_block, h1, h2] at h
    | ok csl =>
      cases h3 : mapMEx (fun p => augment_with_position b p.1 p.2)
          (cto.filterMap id ++ csl.flatten) with
      | error er => simp [get_confirmed_txs_by_block, h1, h2, h3] at h
      | ok wpo =>
        have h4 : mapMEx (fun g => augment_with_header b g.1 g.2)
            ((wpo.filterMap id).foldl
              (fun m t => insertGrouped m t.1 (t.2.2, t.2.1)) []) = .ok bs := by
          simpa [get_confirmed_txs_by_block, h1, h2, h3] using h
        intro e he pt hpt
        obtain ⟨g, hg, hge⟩ := mapMEx_ok_mem h4 e he
        obtain ⟨he1, he2⟩ := augment_with_header_ok b g.1 g.2 e hge
        rw [he2] at hpt
        rcases foldl_insertGrouped_mem (wpo.filterMap id) [] g.1 g.2 pt hg hpt with
          ⟨lst', hl', _⟩ | hmem
        · exact absurd hl' (List.not_mem_nil _)
        · obtain ⟨x, hx, hfx⟩ := List.mem_filterMap.mp hmem
          simp only [id] at hfx
          rw [hfx] at hx
          obtain ⟨y, _, hfy⟩ := mapMEx_ok_mem h3 _ hx
          obtain ⟨hh1, hh2, hpos⟩ :=
            augment_with_position_ok_some b y.1 y.2 (g.1, pt.2, pt.1) hfy
          rw [he1]
          have hy2 : y.2 = pt.2 := hh2.symm
          have hy1 : y.1 = g.1 := hh1.symm ▸ rfl
          rw [← hy2, ← hy1]
          exact hpos

/-- When no position resolves and the confirmed lookups succeed, the
block grouper succeeds with an empty announcement list. -/
theorem gctbb_all_unresolved (b : Backend) (f : TxFilter)
    (hpos : ∀ t h, b.get_position_in_block t h = .ok none)
    (hwt : ∀ p ∈ f.watched_transactions, ∃ v, get_confirmed_tx b p.1 p.2 = .ok v)
    (hwo : ∀ o ∈ f.watched_outputs, ∃ v, get_confirmed_txs b o = .ok v) :
    get_confirmed_txs_by_block b f = .ok [] := by
  obtain ⟨cto, h1⟩ := mapMEx_ok_of_all hwt
  obtain ⟨csl, h2⟩ := mapMEx_ok_of_all hwo
  have haug : ∀ x ∈ cto.filterMap id ++ csl.flatten,
      (fun p : Nat × Tx => augment_with_position b p.1 p.2) x = .ok none := by
    intro x _
    simp [augment_with_position, hpos]
  have hnone : ∀ (l : List (Nat × Tx)),
      (∀ x ∈ l, (fun p : Nat × Tx => augment_with_position b p.1 p.2) x = .ok none) →
      ∃ ns, mapMEx (fun p : Nat × Tx => augment_with_position b p.1 p.2) l = .ok ns ∧
        ns.filterMap id = ([] : List (Nat × Tx × Nat)) := by
    intro l
    induction l with
    | nil => intro _; exact ⟨[], rfl, rfl⟩
    | cons a t ih =>
      intro hall
      obtain ⟨ns, hns, hemp⟩ := ih fun x hx => hall x (List.mem_cons_of_mem a hx)
      refine ⟨none :: ns, ?_, ?_⟩
      · simp only [mapMEx, hall a (List.mem_cons_self a t), hns]
      · simp [hemp]
  obtain ⟨ns, h3, hemp⟩ := hnone _ haug
  simp [get_confirmed_txs_by_block, h1, h2, h3, hemp, mapMEx]

/-- C7: in every pass, each announced (position, transaction) pair at a
height carries a backend-resolved position — so a pair whose position
lookup yields nothing is excluded from every announcement — and a pass
whose position lookups all yield nothing still succeeds (with no
announcements, raising no error), the watch registry being left for later
passes untouched since the grouper only reads it. -/
theorem c7_unresolved_position_excluded :
    (∀ (b : Backend) (f : TxFilter) (bs : List (Nat × Header × List (Nat × Tx))),
      get_confirmed_txs_by_block b f = .ok bs →
      ∀ e ∈ bs, ∀ pt ∈ e.2.2,
        b.get_position_in_block pt.2.txid e.1 = .ok (some pt.1)) ∧
    (∀ (b : Backend) (f : TxFilter),
      (∀ t h, b.get_position_in_block t h = .ok none) →
      (∀ p ∈ f.watched_transactions, ∃ v, get_confirmed_tx b p.1 p.2 = .ok v) →
      (∀ o ∈ f.watched_outputs, ∃ v, get_confirmed_txs b o = .ok v) →
      get_confirmed_txs_by_block b f = .ok []) :=
  ⟨gctbb_positions, gctbb_all_unresolved⟩

/-- C7 witness: the announced pair of the resolving backend carries its
backend position, and the all-unresolved backend announces nothing
without error. -/
theorem c7_unresolved_position_excluded_witness :
    backendC7.get_position_in_block 1 100 = .ok (some 5) ∧
    get_confirmed_txs_by_block backendC7n filterC7 = .ok [] :=
  ⟨c7_unresolved_position_excluded.1 backendC7 filterC7
      [(100, 100, [(5, txA)])] rfl (100, 100, [(5, txA)]) (by decide)
      (5, txA) (by decide),
   c7_unresolved_position_excluded.2 backendC7n filterC7
      (fun _ _ => rfl)
      (by
        intro p hp
        simp only [filterC7, List.mem_singleton] at hp
        subst hp
        exact ⟨some (100, txA), rfl⟩)
      (fun o ho => absurd ho (List.not_mem_nil o))⟩
